import Mathlib

/-!
Verification development for the Ubuntu Image Fetcher (`Ubuntu_Requests.py`).

The Python program is shallowly embedded: byte strings become `List Nat`,
Python strings become Lean `String` (manipulated through explicit `List Char`
helpers so that every operation is transparently executable), HTTP response
headers become an explicit record, the target directory becomes a list of
directory entries, and exceptional control flow is made explicit with
`Option` (`none` models a raised exception escaping the modelled function).

The MD5 digest itself comes from `hashlib`, an external library; it is kept
abstract as a parameter `md5 : List Nat → String` standing for the hexdigest
of a whole byte sequence.  The incremental `hashlib` interface (`update` /
`hexdigest`) is modelled by accumulating the fed bytes and applying `md5` at
the end, which is the documented semantics of `hashlib` hash objects.
-/

/-- Decimal digit characters of a natural number, most significant first,
computed with explicit fuel so that the function is structurally recursive
(fuel `n + 1` always suffices, see `decimalVal_natDigitsCore`). -/
def natDigitsCore (fuel n : Nat) : List Char :=
  match fuel with
  | 0 => []
  | f + 1 =>
    if n < 10 then [Nat.digitChar n]
    else natDigitsCore f (n / 10) ++ [Nat.digitChar (n % 10)]

/-- Decimal digit characters of a natural number, most significant first.
Models the rendering of a Python `int` inside an f-string such as
`f"\x7bname\x7d_\x7bcounter\x7d\x7bext\x7d"`. -/
def natDigitsChars (n : Nat) : List Char :=
  natDigitsCore (n + 1) n

/-- Decimal string of a natural number, modelling Python `str(int)`. -/
def pyNatStr (n : Nat) : String :=
  String.mk (natDigitsChars n)

/-- Value of a digit-character list read back as a decimal numeral. -/
def decimalVal (cs : List Char) : Nat :=
  cs.foldl (fun a c => a * 10 + (c.toNat - 48)) 0

/-- Boolean test that `pat` is an initial segment of `cs`; models Python
`str.startswith`. -/
def listStartsWith : List Char → List Char → Bool
  | [], _ => true
  | _ :: _, [] => false
  | p :: ps, c :: cs => p = c && listStartsWith ps cs

/-- Characters of `cs` strictly before the first occurrence of `c`
(the whole list when `c` is absent); models Python `s.split(c)[0]`. -/
def takeUntilChar (c : Char) : List Char → List Char
  | [] => []
  | x :: xs => if x = c then [] else x :: takeUntilChar c xs

/-- Characters of `cs` strictly after the first occurrence of `c`, when any. -/
def afterChar (c : Char) : List Char → Option (List Char)
  | [] => none
  | x :: xs => if x = c then some xs else afterChar c xs

/-- Characters after the last occurrence of `c` (the whole list when `c` is
absent); for `c = '/'` this models POSIX `os.path.basename`. -/
def lastSegment (c : Char) (cs : List Char) : List Char :=
  (cs.reverse.takeWhile (fun x => x ≠ c)).reverse

/-- Characters of `cs` strictly after the first occurrence of the pattern
`pat` as a contiguous sublist, when it occurs. -/
def afterSub (pat : List Char) : List Char → Option (List Char)
  | [] => none
  | c :: cs =>
    if listStartsWith pat (c :: cs) then some ((c :: cs).drop pat.length)
    else afterSub pat cs

/-- Characters of `cs` strictly before the first occurrence of the pattern
`pat` (the whole list when `pat` does not occur). -/
def upToSub (pat : List Char) : List Char → List Char
  | [] => []
  | c :: cs => if listStartsWith pat (c :: cs) then [] else c :: upToSub pat cs

/-- Boolean occurrence test for a contiguous pattern; models Python
`pat in s`. -/
def containsSub (pat cs : List Char) : Bool :=
  (afterSub pat cs).isSome

/-- Second field of a Python `s.split(pat)` (the text between the first and
second occurrences of `pat`, or until the end when `pat` occurs once). -/
def pySplitSecond (pat cs : List Char) : List Char :=
  match afterSub pat cs with
  | some rest => upToSub pat rest
  | none => []

/-- Strip from both ends every character satisfying `p`; models Python
`str.strip` with a character set. -/
def stripBoth (p : Char → Bool) (cs : List Char) : List Char :=
  ((cs.dropWhile p).reverse.dropWhile p).reverse

/-- HTTP response headers used by the program, each field optional as with
Python's `headers.get`. -/
structure Headers where
  contentType : Option String
  contentLength : Option String
  contentDisposition : Option String

/-- An in-memory HTTP response: headers plus the raw byte payload
(`response.content`). -/
structure Response where
  headers : Headers
  content : List Nat

/-- A directory entry of the target directory: its name, whether it is a
regular file (`os.path.isfile`), and its bytes — `none` models a file whose
`open`/`read` raises `IOError`. -/
structure FileEntry where
  name : String
  isFile : Bool
  content : Option (List Nat)
deriving DecidableEq

/-- Chunking with explicit fuel so that the function is structurally
recursive; fuel `l.length` always suffices since every chunk is nonempty. -/
def chunksCore (n : Nat) : Nat → List Nat → List (List Nat)
  | _, [] => []
  | 0, a :: l' => [a :: l']
  | f + 1, a :: l' => (a :: l'.take (n - 1)) :: chunksCore n f (l'.drop (n - 1))

/-- Split a byte sequence into the successive chunks returned by
`f.read(4096)`-style reads of size `n` (each chunk nonempty, of size `n`
except possibly the last). -/
def chunksOf (n : Nat) (l : List Nat) : List (List Nat) :=
  chunksCore n l.length l

/-- Feeding one chunk to a `hashlib` hash object: the object accumulates the
bytes fed so far (`hash_md5.update(chunk)`). -/
def md5_update (st : List Nat) (chunk : List Nat) : List Nat :=
  st ++ chunk

/-- Embedding of `calculate_file_hash` (Ubuntu_Requests.py lines 13–22): MD5
of a file's bytes, streamed in 4096-byte chunks; returns `none` when reading
the file raises `IOError`. -/
def calculate_file_hash (md5 : List Nat → String) (e : FileEntry) : Option String :=
  match e.content with
  | none => none
  | some bs => some (md5 ((chunksOf 4096 bs).foldl md5_update []))

/-- Scan of the directory listing performed by `is_duplicate_image`
(lines 30–35): first regular file whose streamed hash equals `new_hash`. -/
def scan_for_duplicate (md5 : List Nat → String) (new_hash : String) :
    List FileEntry → Bool × Option String
  | [] => (false, none)
  | e :: rest =>
    if e.isFile then
      if calculate_file_hash md5 e = some new_hash then (true, some e.name)
      else scan_for_duplicate md5 new_hash rest
    else scan_for_duplicate md5 new_hash rest

/-- Embedding of `is_duplicate_image` (lines 24–37): hash the new content in
one shot (`hashlib.md5(content).hexdigest()`) and scan the directory. -/
def is_duplicate_image (md5 : List Nat → String) (content : List Nat)
    (directory : List FileEntry) : Bool × Option String :=
  scan_for_duplicate md5 (md5 content) directory

/-- Models Python's builtin `int(str)` on decimal literals: surrounding
whitespace allowed, optional single sign, then a nonempty run of decimal
digits; `none` models a raised `ValueError` (digit-group underscores are out
of the modelled scope). -/
def pyInt (s : String) : Option Int :=
  match stripBoth Char.isWhitespace s.data with
  | [] => none
  | c :: rest =>
    let signed : Bool × List Char :=
      if c = '-' then (true, rest)
      else if c = '+' then (false, rest)
      else (false, c :: rest)
    match signed with
    | (neg, digits) =>
      if digits ≠ [] ∧ digits.all Char.isDigit then
        let v : Nat := digits.foldl (fun a c => a * 10 + (c.toNat - 48)) 0
        some (if neg then -(v : Int) else (v : Int))
      else none

/-- Boolean form of Python's `content_type.startswith('image/')`. -/
def isImageType (s : String) : Bool :=
  listStartsWith "image/".data s.data

/-- Embedding of `is_safe_to_download` (lines 39–59).  The result is `none`
when `int(content_length)` raises `ValueError` and the exception escapes the
function; otherwise `some (verdict, reason)`.  The common-image-extension
check on the URL (lines 51–57) only prints an advisory warning and never
affects the returned verdict, so it contributes nothing to the embedding;
the `url` parameter is kept for signature fidelity. -/
def is_safe_to_download (url : String) (h : Headers) : Option (Bool × String) :=
  let content_type := h.contentType.getD ""
  if ¬ isImageType content_type then
    some (false, "Content type is not an image: " ++ content_type)
  else
    match h.contentLength with
    | none => some (true, "Safe to download")
    | some cl =>
      if cl = "" then some (true, "Safe to download")
      else
        match pyInt cl with
        | none => none
        | some n =>
          if n > 10 * 1024 * 1024 then
            some (false, "File size exceeds safety limit (10MB)")
          else some (true, "Safe to download")

/-- Models `mimetypes.guess_extension` of the Python standard library for
the MIME types this program meets (external library; image rows of its
built-in table). -/
def guess_extension (mime : String) : Option String :=
  if mime = "image/jpeg" then some ".jpg"
  else if mime = "image/png" then some ".png"
  else if mime = "image/gif" then some ".gif"
  else if mime = "image/bmp" then some ".bmp"
  else if mime = "image/webp" then some ".webp"
  else if mime = "image/tiff" then some ".tiff"
  else if mime = "image/svg+xml" then some ".svg"
  else none

/-- Extension chosen from the declared content type, exactly as lines 74–76
and 85–87 do: default header value `image/jpeg`, parameters after `;`
dropped, table lookup, fallback `.jpg` (Python's `or '.jpg'`). -/
def extFromContentType (h : Headers) : String :=
  let content_type := h.contentType.getD "image/jpeg"
  (guess_extension (String.mk (takeUntilChar ';' content_type.data))).getD ".jpg"

/-- Models the `path` component of `urllib.parse.urlparse` (external library)
for the URL shapes this program meets: fragment after the first `#` and query
after the first `?` are stripped; a `scheme:` with an alphabetic scheme name
is removed; after `//` the network location extends to the first `/`, and the
path is that slash onward (empty when no slash follows the authority). -/
def urlparse_path (url : String) : List Char :=
  let s := takeUntilChar '?' (takeUntilChar '#' url.data)
  match afterChar ':' s with
  | some r =>
    if (takeUntilChar ':' s).all Char.isAlpha ∧ takeUntilChar ':' s ≠ [] then
      if listStartsWith "//".data r then
        let hostpath := r.drop 2
        match afterChar '/' hostpath with
        | some rest => '/' :: rest
        | none => []
      else r
    else s
  | none => s

/-- The fixed safe-character set of line 80. -/
def safe_chars : List Char :=
  " -_.()[]\x7b\x7dabcdefghijklmnopqrstuvwxyzABCDEFGHIJKLMNOPQRSTUVWXYZ0123456789".data

/-- The sanitization of lines 79–81: strip query and fragment remnants,
filter to the safe character set, strip surrounding whitespace. -/
def sanitize_filename (cs : List Char) : List Char :=
  stripBoth Char.isWhitespace
    ((takeUntilChar '#' (takeUntilChar '?' cs)).filter (fun c => c ∈ safe_chars))

/-- Embedding of `get_filename_from_url` (lines 61–89): candidate from the
URL path's last segment, else from the `content-disposition` header's
`filename=` parameter with surrounding quotes stripped, else the synthesized
`downloaded_image<ext>`; then query/fragment stripping, filtering to
`safe_chars`, whitespace strip, and a final guaranteed extension. -/
def get_filename_from_url (url : String) (h : Headers) : String :=
  let filename0 : List Char := lastSegment '/' (urlparse_path url)
  let filename1 : List Char :=
    if filename0 = [] ∨ ¬ '.' ∈ filename0 then
      let content_disp := (h.contentDisposition.getD "").data
      if containsSub "filename=".data content_disp then
        stripBoth (fun c => c = '"' ∨ c = '\'') (pySplitSecond "filename=".data content_disp)
      else filename0
    else filename0
  let filename2 : List Char :=
    if filename1 = [] ∨ ¬ '.' ∈ filename1 then
      "downloaded_image".data ++ (extFromContentType h).data
    else filename1
  let filename3 : List Char := sanitize_filename filename2
  if ¬ '.' ∈ filename3 then String.mk (filename3 ++ (extFromContentType h).data)
  else String.mk filename3

/-- Models `os.path.splitext` on a path with no directory separator: split at
the last `.`, except when every character before that dot is itself a dot
(so `.bashrc` and `...` do not split).  Inside the pipeline the argument is a
sanitized filename, which contains no `/`, so working below the directory
join is exact. -/
def splitext (s : String) : String × String :=
  let cs := s.data
  let extRev := cs.reverse.takeWhile (fun c => c ≠ '.')
  if extRev.length = cs.length then (s, "")
  else
    let i := cs.length - extRev.length - 1
    if (cs.take i).any (fun c => c ≠ '.') then
      (String.mk (cs.take i), String.mk (cs.drop i))
    else (s, "")

/-- The candidate path built by line 132, `f"\x7bname\x7d_\x7bcounter\x7d\x7bext\x7d"`. -/
def cand (stem ext : String) (counter : Nat) : String :=
  stem ++ "_" ++ pyNatStr counter ++ ext

/-- One step of the `while os.path.exists(filepath)` loop of lines 128–133,
starting at `counter`; `fuel` bounds the iteration count and is chosen large
enough to be unreachable (`collideFrom_eq` below proves the loop stops at the
first free candidate). -/
def collideFrom (stem ext : String) (names : List String) : Nat → Nat → String
  | counter, 0 => cand stem ext counter
  | counter, fuel + 1 =>
    if cand stem ext counter ∈ names then collideFrom stem ext names (counter + 1) fuel
    else cand stem ext counter

/-- Embedding of the filename-conflict loop of `download_single_image`
(lines 127–133): keep the original name when no path of that name exists,
otherwise try `stem_1ext, stem_2ext, …` until a free name is found.
`names` is the set of paths existing in the target directory. -/
def resolve_collision (filename : String) (names : List String) : String :=
  if filename ∈ names then
    collideFrom (splitext filename).1 (splitext filename).2 names 1 (names.length + 1)
  else filename

/-- The complete filename-resolution step of the pipeline (lines 124–133 —
the spec's `FilenameResolver.resolve`): derive a sanitized candidate, then
resolve collisions against the directory listing. -/
def resolve_filename (url : String) (h : Headers) (names : List String) : String :=
  resolve_collision (get_filename_from_url url h) names

/-- Embedding of `download_single_image` (lines 91–148).  `fetch = none`
models `requests.get` raising a `RequestException`; `is_safe_to_download`
returning `none` models the `ValueError` escaping it; both are caught by the
function's handlers, which return `False`.  The result pairs the returned
boolean with the directory contents after the call (the HEAD probe of lines
97–102 has no observable effect on this state and is not modelled). -/
def download_single_image (md5 : List Nat → String) (url : String)
    (fetch : Option Response) (directory : List FileEntry) : Bool × List FileEntry :=
  match fetch with
  | none => (false, directory)
  | some resp =>
    match is_safe_to_download url resp.headers with
    | none => (false, directory)
    | some (false, _) => (false, directory)
    | some (true, _) =>
      match is_duplicate_image md5 resp.content directory with
      | (true, _) => (true, directory)
      | (false, _) =>
        let filename := get_filename_from_url url resp.headers
        let filepath := resolve_collision filename (directory.map FileEntry.name)
        (true, directory ++ [⟨filepath, true, some resp.content⟩])

/-- A concrete executable digest used by witnesses: last decimal digit of
each byte. -/
def md5w (bs : List Nat) : String :=
  String.mk (bs.map (fun b => Nat.digitChar (b % 10)))

/-- With enough fuel, reading back the digit characters of `n` recovers `n`. -/
theorem decimalVal_natDigitsCore :
    ∀ (fuel n : Nat), n < 10 ^ fuel → decimalVal (natDigitsCore fuel n) = n := by
  intro fuel
  induction fuel with
  | zero =>
    intro n h
    have : n = 0 := by simpa using h
    simp [this, natDigitsCore, decimalVal]
  | succ f ih =>
    intro n h
    by_cases hn : n < 10
    · have hd : ∀ d, d < 10 → (Nat.digitChar d).toNat - 48 = d := by decide
      simp [natDigitsCore, hn, decimalVal, hd n hn]
    · have hdiv : n / 10 < 10 ^ f := by
        rw [pow_succ] at h
        omega
      have ihd := ih (n / 10) hdiv
      have hd : ∀ d, d < 10 → (Nat.digitChar d).toNat - 48 = d := by decide
      have hmod : n % 10 < 10 := Nat.mod_lt _ (by omega)
      simp only [natDigitsCore, hn, if_false, decimalVal, List.foldl_append] at ihd ⊢
      rw [ihd, List.foldl, List.foldl, hd _ hmod]
      omega

/-- Reading back the digit characters of `n` recovers `n`. -/
theorem decimalVal_natDigitsChars (n : Nat) : decimalVal (natDigitsChars n) = n := by
  have hfuel : n < 10 ^ (n + 1) :=
    lt_of_lt_of_le (Nat.lt_pow_self (by omega) n)
      (Nat.pow_le_pow_right (by omega) (by omega))
  exact decimalVal_natDigitsCore (n + 1) n hfuel

/-- The decimal rendering of naturals is injective. -/
theorem pyNatStr_injective : Function.Injective pyNatStr := by
  intro a b h
  have hd : natDigitsChars a = natDigitsChars b := congrArg String.data h
  have := decimalVal_natDigitsChars a
  rw [hd, decimalVal_natDigitsChars] at this
  omega

/-- With enough fuel, all chunks fed in order accumulate to exactly the
original bytes. -/
theorem chunksCore_foldl_update (n : Nat) :
    ∀ (f : Nat) (l acc : List Nat), l.length ≤ f + 1 →
      (chunksCore n f l).foldl md5_update acc = acc ++ l := by
  intro f
  induction f with
  | zero =>
    intro l acc h
    match l with
    | [] => simp [chunksCore, md5_update]
    | [a] => simp [chunksCore, md5_update]
    | a :: b :: l' => simp at h
  | succ f ih =>
    intro l acc h
    match l with
    | [] => simp [chunksCore, md5_update]
    | a :: l' =>
      simp only [chunksCore, List.foldl_cons]
      rw [ih (l'.drop (n - 1)) (md5_update acc (a :: l'.take (n - 1)))
        (by simp only [List.length_drop]; simp at h; omega)]
      simp [md5_update, List.append_assoc]

/-- All chunks fed in order accumulate to exactly the original bytes. -/
theorem chunksOf_foldl_update (n : Nat) (l acc : List Nat) :
    (chunksOf n l).foldl md5_update acc = acc ++ l :=
  chunksCore_foldl_update n l.length l acc (by omega)

/-- Helper: the streamed hash succeeds with value `nh` exactly when the entry
is readable and its bytes hash to `nh`. -/
theorem calculate_file_hash_eq_some_iff (md5 : List Nat → String) (e : FileEntry)
    (nh : String) :
    calculate_file_hash md5 e = some nh ↔ ∃ bs, e.content = some bs ∧ md5 bs = nh := by
  obtain ⟨nm, isF, c⟩ := e
  cases c <;> simp [calculate_file_hash, chunksOf_foldl_update]

/-- Helper: the scan reports a duplicate exactly when some regular file's
streamed hash equals the target hash. -/
theorem scan_eq_true_iff (md5 : List Nat → String) (nh : String)
    (dir : List FileEntry) :
    (scan_for_duplicate md5 nh dir).1 = true ↔
      ∃ e ∈ dir, e.isFile = true ∧ calculate_file_hash md5 e = some nh := by
  induction dir with
  | nil => simp [scan_for_duplicate]
  | cons e rest ih =>
    by_cases hf : e.isFile = true
    · by_cases hh : calculate_file_hash md5 e = some nh
      · simp [scan_for_duplicate, hf, hh]
      · rw [show scan_for_duplicate md5 nh (e :: rest) =
            scan_for_duplicate md5 nh rest from by simp [scan_for_duplicate, hf, hh]]
        rw [ih]
        constructor
        · rintro ⟨x, hx, h1, h2⟩
          exact ⟨x, List.mem_cons_of_mem _ hx, h1, h2⟩
        · rintro ⟨x, hx, h1, h2⟩
          rcases List.mem_cons.mp hx with hx | hx
          · subst hx; exact absurd h2 hh
          · exact ⟨x, hx, h1, h2⟩
    · rw [show scan_for_duplicate md5 nh (e :: rest) =
          scan_for_duplicate md5 nh rest from by simp [scan_for_duplicate, hf]]
      rw [ih]
      constructor
      · rintro ⟨x, hx, h1, h2⟩
        exact ⟨x, List.mem_cons_of_mem _ hx, h1, h2⟩
      · rintro ⟨x, hx, h1, h2⟩
        rcases List.mem_cons.mp hx with hx | hx
        · subst hx; exact absurd h1 hf
        · exact ⟨x, hx, h1, h2⟩

/-- Helper: when the scan reports a duplicate, the reported name is the name
of a regular file whose streamed hash matches. -/
theorem scan_name_of_true (md5 : List Nat → String) (nh : String) :
    ∀ dir : List FileEntry, (scan_for_duplicate md5 nh dir).1 = true →
      ∃ e ∈ dir, e.isFile = true ∧ calculate_file_hash md5 e = some nh ∧
        (scan_for_duplicate md5 nh dir).2 = some e.name
  | [], h => by simp [scan_for_duplicate] at h
  | e :: rest, h => by
    by_cases hf : e.isFile
    · by_cases hh : calculate_file_hash md5 e = some nh
      · exact ⟨e, by simp, hf, hh, by simp [scan_for_duplicate, hf, hh]⟩
      · rw [show scan_for_duplicate md5 nh (e :: rest) =
            scan_for_duplicate md5 nh rest by simp [scan_for_duplicate, hf, hh]] at h ⊢
        obtain ⟨x, hx, h1, h2, h3⟩ := scan_name_of_true md5 nh rest h
        exact ⟨x, List.mem_cons_of_mem _ hx, h1, h2, h3⟩
    · rw [show scan_for_duplicate md5 nh (e :: rest) =
          scan_for_duplicate md5 nh rest by simp [scan_for_duplicate, hf]] at h ⊢
      obtain ⟨x, hx, h1, h2, h3⟩ := scan_name_of_true md5 nh rest h
      exact ⟨x, List.mem_cons_of_mem _ hx, h1, h2, h3⟩

/-- Helper: when the scan finds no duplicate it reports no filename. -/
theorem scan_none_of_false (md5 : List Nat → String) (nh : String) :
    ∀ dir : List FileEntry, (scan_for_duplicate md5 nh dir).1 = false →
      (scan_for_duplicate md5 nh dir).2 = none
  | [], _ => by simp [scan_for_duplicate]
  | e :: rest, h => by
    by_cases hf : e.isFile
    · by_cases hh : calculate_file_hash md5 e = some nh
      · simp [scan_for_duplicate, hf, hh] at h
      · rw [show scan_for_duplicate md5 nh (e :: rest) =
            scan_for_duplicate md5 nh rest by simp [scan_for_duplicate, hf, hh]] at h ⊢
        exact scan_none_of_false md5 nh rest h
    · rw [show scan_for_duplicate md5 nh (e :: rest) =
          scan_for_duplicate md5 nh rest by simp [scan_for_duplicate, hf]] at h ⊢
      exact scan_none_of_false md5 nh rest h

/-- Claim C2: `is_duplicate_image` returns duplicate=true paired with the name of a
matching regular file exactly when some regular file of the directory has the
digest of the new content, regardless of that file's name or extension; with
no such file it returns duplicate=false (and no filename) after scanning all
entries. -/
theorem is_duplicate_image_spec (md5 : List Nat → String) (content : List Nat)
    (directory : List FileEntry) :
    ((is_duplicate_image md5 content directory).1 = true ↔
      ∃ e ∈ directory, e.isFile = true ∧
        ∃ bs, e.content = some bs ∧ md5 bs = md5 content) ∧
    ((is_duplicate_image md5 content directory).1 = true →
      ∃ e ∈ directory, e.isFile = true ∧
        (∃ bs, e.content = some bs ∧ md5 bs = md5 content) ∧
        (is_duplicate_image md5 content directory).2 = some e.name) ∧
    ((is_duplicate_image md5 content directory).1 = false →
      (is_duplicate_image md5 content directory).2 = none) := by
  refine ⟨?_, ?_, ?_⟩
  · rw [is_duplicate_image, scan_eq_true_iff]
    constructor
    · rintro ⟨e, he, h1, h2⟩
      exact ⟨e, he, h1, (calculate_file_hash_eq_some_iff md5 e _).mp h2⟩
    · rintro ⟨e, he, h1, h2⟩
      exact ⟨e, he, h1, (calculate_file_hash_eq_some_iff md5 e _).mpr h2⟩
  · intro h
    obtain ⟨e, he, h1, h2, h3⟩ := scan_name_of_true md5 (md5 content) directory h
    exact ⟨e, he, h1, (calculate_file_hash_eq_some_iff md5 e _).mp h2, h3⟩
  · exact scan_none_of_false md5 (md5 content) directory

/-- Witness for C2 at a concrete directory: a file with matching bytes is
reported as a duplicate under its own name. -/
theorem is_duplicate_image_spec_witness :
    (is_duplicate_image md5w [1, 2] [⟨"a.png", true, some [1, 2]⟩]).1 = true ∧
    (is_duplicate_image md5w [1, 2] [⟨"a.png", true, some [1, 2]⟩]).2 = some "a.png" := by
  have h := is_duplicate_image_spec md5w [1, 2] [⟨"a.png", true, some [1, 2]⟩]
  have h1 : (is_duplicate_image md5w [1, 2] [⟨"a.png", true, some [1, 2]⟩]).1 = true :=
    h.1.mpr ⟨⟨"a.png", true, some [1, 2]⟩, by simp, rfl, [1, 2], rfl, rfl⟩
  obtain ⟨e, he, _, _, hname⟩ := h.2.1 h1
  have : e = ⟨"a.png", true, some [1, 2]⟩ := by simpa using he
  exact ⟨h1, by rw [hname, this]⟩

/-- Claim C9: hashing a readable file by streaming its bytes in fixed-size
4096-byte chunks (`calculate_file_hash`) yields exactly the digest of the
whole byte sequence at once, the digest `is_duplicate_image` computes for the
new content — the two digest computations agree as functions of the bytes. -/
theorem calculate_file_hash_chunked_eq_whole (md5 : List Nat → String)
    (nm : String) (isF : Bool) (bs : List Nat) :
    calculate_file_hash md5 ⟨nm, isF, some bs⟩ = some (md5 bs) := by
  simp [calculate_file_hash, chunksOf_foldl_update]

/-- Helper: an unreadable entry contributes nothing to the scan. -/
theorem scan_skip_unreadable (md5 : List Nat → String) (nh : String)
    (e : FileEntry) (h : e.content = none) :
    ∀ (pre post : List FileEntry),
      scan_for_duplicate md5 nh (pre ++ e :: post) =
        scan_for_duplicate md5 nh (pre ++ post)
  | [], post => by
    have hc : calculate_file_hash md5 e = none := by simp [calculate_file_hash, h]
    by_cases hf : e.isFile <;> simp [scan_for_duplicate, hf, hc]
  | p :: pre, post => by
    have ih := scan_skip_unreadable md5 nh e h pre post
    simp only [List.cons_append, scan_for_duplicate, List.append_eq] at ih ⊢
    rw [ih]

/-- Claim C8: during the duplicate scan, an existing file that cannot be opened or
read contributes no digest match — deleting it from the listing leaves the
scan's outcome unchanged, the remaining files are still scanned, and the
per-file I/O error never escapes (the embedded scan is total). -/
theorem is_duplicate_image_skips_unreadable (md5 : List Nat → String)
    (content : List Nat) (e : FileEntry) (h : e.content = none)
    (pre post : List FileEntry) :
    is_duplicate_image md5 content (pre ++ e :: post) =
      is_duplicate_image md5 content (pre ++ post) := by
  rw [is_duplicate_image, is_duplicate_image, scan_skip_unreadable md5 _ e h]

/-- Witness for C8: a concrete unreadable file between two readable ones is
skipped and the scan still finds the later duplicate. -/
theorem is_duplicate_image_skips_unreadable_witness :
    is_duplicate_image md5w [7] [⟨"x.png", true, some [3]⟩, ⟨"bad.png", true, none⟩,
        ⟨"y.png", true, some [7]⟩] =
      is_duplicate_image md5w [7] [⟨"x.png", true, some [3]⟩, ⟨"y.png", true, some [7]⟩] ∧
    is_duplicate_image md5w [7] [⟨"x.png", true, some [3]⟩, ⟨"bad.png", true, none⟩,
        ⟨"y.png", true, some [7]⟩] = (true, some "y.png") := by
  constructor
  · exact is_duplicate_image_skips_unreadable md5w [7] ⟨"bad.png", true, none⟩ rfl
      [⟨"x.png", true, some [3]⟩] [⟨"y.png", true, some [7]⟩]
  · decide

/-- Claim C3: the safety check rejects with the not-an-image reason unless the
content type begins with `image/`; rejects with the size-limit reason when a
content-length header parses to an integer above 10 × 1024 × 1024; accepts
otherwise (header absent, empty, or parsing within the limit).  In
particular `text/html` is rejected regardless of the size header,
`image/png` with length 1024 is accepted, and `image/png` with length
20971520 is rejected. -/
theorem is_safe_to_download_spec (url : String) (h : Headers) :
    (isImageType (h.contentType.getD "") = false →
      is_safe_to_download url h =
        some (false, "Content type is not an image: " ++ h.contentType.getD "")) ∧
    (∀ (cl : String) (n : Int), isImageType (h.contentType.getD "") = true →
      h.contentLength = some cl → pyInt cl = some n → n > 10 * 1024 * 1024 →
      is_safe_to_download url h =
        some (false, "File size exceeds safety limit (10MB)")) ∧
    (isImageType (h.contentType.getD "") = true →
      (h.contentLength = none ∨ h.contentLength = some "" ∨
        ∃ (cl : String) (n : Int), h.contentLength = some cl ∧ pyInt cl = some n ∧
          n ≤ 10 * 1024 * 1024) →
      is_safe_to_download url h = some (true, "Safe to download")) ∧
    (∀ s : Option String, is_safe_to_download url ⟨some "text/html", s, none⟩ =
      some (false, "Content type is not an image: text/html")) ∧
    is_safe_to_download url ⟨some "image/png", some "1024", none⟩ =
      some (true, "Safe to download") ∧
    is_safe_to_download url ⟨some "image/png", some "20971520", none⟩ =
      some (false, "File size exceeds safety limit (10MB)") := by
  refine ⟨?_, ?_, ?_, ?_, rfl, rfl⟩
  · intro hIm
    simp [is_safe_to_download, hIm]
  · intro cl n hIm hcl hp hn
    have hne : cl ≠ "" := by
      intro e
      subst e
      simp [pyInt, stripBoth] at hp
    rw [is_safe_to_download]
    simp only [hIm, not_true, if_false, hcl, hne, if_neg, hp]
    simp [hne, hn]
    omega
  · intro hIm hor
    rw [is_safe_to_download]
    rcases hor with hor | hor | ⟨cl, n, hcl, hp, hn⟩
    · simp [hIm, hor]
    · simp [hIm, hor]
    · have hne : cl ≠ "" := by
        intro e
        subst e
        simp [pyInt, stripBoth] at hp
      simp [hIm, hcl, hne, hp]
      omega
  · intro s
    rcases s with _ | cl <;> simp [is_safe_to_download, isImageType, listStartsWith]

/-- Witness for C3 at concrete headers: every branch of the claim is
exercised by applying the theorem. -/
theorem is_safe_to_download_spec_witness :
    isImageType "text/html" = false ∧
    is_safe_to_download "http://x/a" ⟨some "text/html", some "50", none⟩ =
      some (false, "Content type is not an image: text/html") ∧
    pyInt "20971520" = some 20971520 ∧
    is_safe_to_download "http://x/a" ⟨some "image/png", some "20971520", none⟩ =
      some (false, "File size exceeds safety limit (10MB)") ∧
    is_safe_to_download "http://x/a" ⟨some "image/png", some "1024", none⟩ =
      some (true, "Safe to download") := by
  refine ⟨by decide, ?_, by decide, ?_, ?_⟩
  · exact (is_safe_to_download_spec "http://x/a" ⟨some "text/html", some "50", none⟩).1
      (by decide)
  · exact (is_safe_to_download_spec "http://x/a" ⟨some "image/png", some "20971520", none⟩).2.1
      "20971520" 20971520 (by decide) rfl (by decide) (by decide)
  · exact (is_safe_to_download_spec "http://x/a" ⟨some "image/png", some "1024", none⟩).2.2.1
      (by decide) (Or.inr (Or.inr ⟨"1024", 1024, rfl, by decide, by decide⟩))

/-- Claim C10: when the content type is an image but the content-length header is a
nonempty non-numeric string, `is_safe_to_download` produces no verdict at all
(`int()` raises a `ValueError` that escapes the validator); the pipeline's
generic handler catches it and converts the URL's outcome to false with the
directory unchanged. -/
theorem is_safe_to_download_raises (url : String) (h : Headers) (cl : String)
    (hct : isImageType (h.contentType.getD "") = true)
    (hcl : h.contentLength = some cl) (hne : cl ≠ "") (hparse : pyInt cl = none) :
    is_safe_to_download url h = none ∧
    ∀ (md5 : List Nat → String) (content : List Nat) (directory : List FileEntry),
      download_single_image md5 url (some ⟨h, content⟩) directory =
        (false, directory) := by
  have h1 : is_safe_to_download url h = none := by
    simp [is_safe_to_download, hct, hcl, hne, hparse]
  refine ⟨h1, ?_⟩
  intro md5 content directory
  simp [download_single_image, h1]

/-- Witness for C10: content-length `"abc"` with an image content type. -/
theorem is_safe_to_download_raises_witness :
    isImageType "image/png" = true ∧ pyInt "abc" = none ∧
    is_safe_to_download "http://x/a.png" ⟨some "image/png", some "abc", none⟩ = none ∧
    download_single_image md5w "http://x/a.png"
      (some ⟨⟨some "image/png", some "abc", none⟩, [1]⟩) [] = (false, []) := by
  have h := is_safe_to_download_raises "http://x/a.png"
    ⟨some "image/png", some "abc", none⟩ "abc" (by decide) rfl (by decide) (by decide)
  exact ⟨by decide, by decide, h.1, h.2 md5w [1] []⟩

/-- Claim C1: when the safety check rejects the response the pipeline returns false
and the directory is unchanged; when the deduplicator reports a duplicate the
pipeline returns true and the directory is unchanged — no file is written in
either case. -/
theorem download_single_image_frame (md5 : List Nat → String) (url : String)
    (resp : Response) (directory : List FileEntry) :
    (∀ msg, is_safe_to_download url resp.headers = some (false, msg) →
      download_single_image md5 url (some resp) directory = (false, directory)) ∧
    (∀ msg, is_safe_to_download url resp.headers = some (true, msg) →
      (is_duplicate_image md5 resp.content directory).1 = true →
      download_single_image md5 url (some resp) directory = (true, directory)) := by
  constructor
  · intro msg h
    simp [download_single_image, h]
  · intro msg h hdup
    rcases hdd : is_duplicate_image md5 resp.content directory with ⟨b, o⟩
    rw [hdd] at hdup
    simp only at hdup
    subst hdup
    simp [download_single_image, h, hdd]

/-- Witness for C1: a `text/plain` response is rejected writing nothing, and
a byte-identical response to an existing file is reported as a duplicate
without creating a second file. -/
theorem download_single_image_frame_witness :
    download_single_image md5w "http://x/a"
      (some ⟨⟨some "text/plain", none, none⟩, [9]⟩) [] = (false, []) ∧
    download_single_image md5w "http://x/b.png"
      (some ⟨⟨some "image/png", none, none⟩, [1, 2]⟩) [⟨"a.png", true, some [1, 2]⟩] =
      (true, [⟨"a.png", true, some [1, 2]⟩]) := by
  constructor
  · exact (download_single_image_frame md5w "http://x/a"
      ⟨⟨some "text/plain", none, none⟩, [9]⟩ []).1
      "Content type is not an image: text/plain" (by decide)
  · exact (download_single_image_frame md5w "http://x/b.png"
      ⟨⟨some "image/png", none, none⟩, [1, 2]⟩ [⟨"a.png", true, some [1, 2]⟩]).2
      "Safe to download" (by decide) (by decide)

/-- Claim C7: every modelled fault of a single URL's processing — the transport
request raising (`fetch = none`) and the validator raising (`is_safe`
returning no verdict) — is caught inside `download_single_image`, which
returns false with the directory unchanged; the embedded pipeline is a total
function, so no exception propagates to the rest of the batch. -/
theorem download_single_image_catches (md5 : List Nat → String) (url : String)
    (directory : List FileEntry) :
    download_single_image md5 url none directory = (false, directory) ∧
    (∀ resp : Response, is_safe_to_download url resp.headers = none →
      download_single_image md5 url (some resp) directory = (false, directory)) := by
  constructor
  · rfl
  · intro resp h
    simp [download_single_image, h]

/-- Witness for C7: a concrete transport failure and a concrete validator
fault both yield false and leave a nonempty directory unchanged. -/
theorem download_single_image_catches_witness :
    download_single_image md5w "http://y/b.png" none [⟨"k.png", true, some [5]⟩] =
      (false, [⟨"k.png", true, some [5]⟩]) ∧
    download_single_image md5w "http://y/b.png"
      (some ⟨⟨some "image/gif", some "12x", none⟩, [5]⟩) [⟨"k.png", true, some [5]⟩] =
      (false, [⟨"k.png", true, some [5]⟩]) := by
  have h := download_single_image_catches md5w "http://y/b.png" [⟨"k.png", true, some [5]⟩]
  exact ⟨h.1, h.2 ⟨⟨some "image/gif", some "12x", none⟩, [5]⟩ (by decide)⟩

/-- Helper: candidate paths built with different counters are different
strings (the decimal counter is recoverable from the candidate). -/
theorem cand_injective (stem ext : String) : Function.Injective (cand stem ext) := by
  intro a b hab
  have hd := congrArg String.data hab
  simp only [cand, String.data_append] at hd
  have h1 := List.append_cancel_right hd
  have h2 := List.append_cancel_left h1
  exact pyNatStr_injective (String.ext h2)

/-- Helper: among the first `names.length + 1` candidate counters, at least
one candidate name is unused (pigeonhole on distinct candidates). -/
theorem exists_cand_free (stem ext : String) (names : List String) :
    ∃ k, k ≤ names.length ∧ cand stem ext (k + 1) ∉ names := by
  by_contra hc
  push_neg at hc
  have hinj : Function.Injective (fun k : Nat => cand stem ext (k + 1)) := by
    intro a b hab
    have := cand_injective stem ext hab
    omega
  have hnodup : ((List.range (names.length + 1)).map
      (fun k => cand stem ext (k + 1))).Nodup :=
    List.Nodup.map hinj (List.nodup_range _)
  have hsub : ((List.range (names.length + 1)).map
      (fun k => cand stem ext (k + 1))) ⊆ names := by
    intro x hx
    rw [List.mem_map] at hx
    obtain ⟨k, hk, rfl⟩ := hx
    exact hc k (Nat.lt_succ_iff.mp (List.mem_range.mp hk))
  have hle := (List.subperm_of_subset hnodup hsub).length_le
  simp only [List.length_map, List.length_range] at hle
  omega

/-- Helper: with enough fuel the collision loop returns the candidate of the
least free counter at or above the starting counter. -/
theorem collideFrom_eq (stem ext : String) (names : List String) :
    ∀ (fuel counter n : Nat), counter ≤ n → cand stem ext n ∉ names →
      (∀ m, counter ≤ m → m < n → cand stem ext m ∈ names) →
      n - counter < fuel →
      collideFrom stem ext names counter fuel = cand stem ext n := by
  intro fuel
  induction fuel with
  | zero =>
    intro counter n _ _ _ h4
    omega
  | succ f ih =>
    intro counter n h1 h2 h3 h4
    by_cases hin : cand stem ext counter ∈ names
    · have hcn : counter ≠ n := fun e => h2 (e ▸ hin)
      rw [collideFrom, if_pos hin]
      exact ih (counter + 1) n (by omega) h2
        (fun m hm1 hm2 => h3 m (by omega) hm2) (by omega)
    · have hcn : counter = n := by
        by_contra hne
        exact hin (h3 counter le_rfl (by omega))
      rw [collideFrom, if_neg hin, hcn]

/-- Helper: on a colliding candidate, the conflict loop returns the candidate
with the smallest free counter `n ≥ 1`, and that name is unused. -/
theorem resolve_collision_mem_spec (filename : String) (names : List String)
    (hmem : filename ∈ names) :
    ∃ n : Nat, 1 ≤ n ∧
      resolve_collision filename names =
        cand (splitext filename).1 (splitext filename).2 n ∧
      cand (splitext filename).1 (splitext filename).2 n ∉ names ∧
      (∀ m, 1 ≤ m → m < n →
        cand (splitext filename).1 (splitext filename).2 m ∈ names) := by
  have hex : ∃ k : Nat, cand (splitext filename).1 (splitext filename).2 (k + 1) ∉ names := by
    obtain ⟨k, _, hk⟩ := exists_cand_free (splitext filename).1 (splitext filename).2 names
    exact ⟨k, hk⟩
  refine ⟨Nat.find hex + 1, by omega, ?_, Nat.find_spec hex, ?_⟩
  · rw [resolve_collision, if_pos hmem]
    apply collideFrom_eq
    · omega
    · exact Nat.find_spec hex
    · intro m hm1 hm2
      have hmin : ¬ cand (splitext filename).1 (splitext filename).2 ((m - 1) + 1) ∉ names :=
        Nat.find_min hex (by omega)
      rw [Nat.sub_add_cancel hm1] at hmin
      exact not_not.mp hmin
    · obtain ⟨k, hk1, hk2⟩ := exists_cand_free (splitext filename).1 (splitext filename).2 names
      have := Nat.find_min' hex hk2
      omega
  · intro m hm1 hm2
    have hmin : ¬ cand (splitext filename).1 (splitext filename).2 ((m - 1) + 1) ∉ names :=
      Nat.find_min hex (by omega)
    rw [Nat.sub_add_cancel hm1] at hmin
    exact not_not.mp hmin

/-- Claim C6: when the sanitized candidate's name already exists, the collision
loop produces the candidate with `_<n>` inserted immediately before the
extension, for the smallest `n ≥ 1` whose resulting path does not exist. -/
theorem resolve_collision_smallest (filename : String) (names : List String)
    (hmem : filename ∈ names) :
    ∃ n : Nat, 1 ≤ n ∧
      resolve_collision filename names =
        (splitext filename).1 ++ "_" ++ pyNatStr n ++ (splitext filename).2 ∧
      ((splitext filename).1 ++ "_" ++ pyNatStr n ++ (splitext filename).2) ∉ names ∧
      (∀ m, 1 ≤ m → m < n →
        ((splitext filename).1 ++ "_" ++ pyNatStr m ++ (splitext filename).2) ∈ names) := by
  simpa [cand] using resolve_collision_mem_spec filename names hmem

/-- Witness for C6: `image.jpg` colliding with an existing `image.jpg` is
written as `image_1.jpg`, also through the whole pipeline with two
different-content resources resolving to the same base name. -/
theorem resolve_collision_smallest_witness :
    resolve_collision "image.jpg" ["image.jpg"] = "image_1.jpg" ∧
    download_single_image md5w "https://x/image.jpg"
      (some ⟨⟨some "image/jpeg", none, none⟩, [2]⟩) [⟨"image.jpg", true, some [1]⟩] =
      (true, [⟨"image.jpg", true, some [1]⟩, ⟨"image_1.jpg", true, some [2]⟩]) ∧
    ("image.jpg" ∈ ["image.jpg"]) ∧
    (∃ n : Nat, 1 ≤ n ∧
      resolve_collision "image.jpg" ["image.jpg"] =
        (splitext "image.jpg").1 ++ "_" ++ pyNatStr n ++ (splitext "image.jpg").2 ∧
      ((splitext "image.jpg").1 ++ "_" ++ pyNatStr n ++ (splitext "image.jpg").2) ∉
        ["image.jpg"] ∧
      (∀ m, 1 ≤ m → m < n →
        ((splitext "image.jpg").1 ++ "_" ++ pyNatStr m ++ (splitext "image.jpg").2) ∈
          ["image.jpg"])) :=
  ⟨by decide, by decide, by decide,
    resolve_collision_smallest "image.jpg" ["image.jpg"] (by decide)⟩

/-- Claim C4, amended: the filename-resolution step never yields a name already
present in the target directory at call time; and, resolution being a pure
function of the url, headers and directory listing, calling it twice in
sequence without writing in between yields the same name both times (not two
different names). -/
theorem resolve_filename_fresh (url : String) (h : Headers) (names : List String) :
    resolve_filename url h names ∉ names ∧
    resolve_filename url h names = resolve_filename url h names := by
  refine ⟨?_, rfl⟩
  rw [resolve_filename]
  by_cases hmem : get_filename_from_url url h ∈ names
  · obtain ⟨n, _, heq, hnot, _⟩ :=
      resolve_collision_mem_spec (get_filename_from_url url h) names hmem
    rw [heq]
    exact hnot
  · rw [resolve_collision, if_neg hmem]
    exact hmem

/-- Counterexample for C4 as stated: with `image.jpg` already present, two
successive resolutions with no write in between both return `image_1.jpg` —
the same name, not two different names. -/
theorem resolve_filename_twice_counterexample :
    resolve_filename "https://x/image.jpg" ⟨some "image/jpeg", none, none⟩
      ["image.jpg"] = "image_1.jpg" ∧
    resolve_filename "https://x/image.jpg" ⟨some "image/jpeg", none, none⟩
      ["image.jpg"] = "image_1.jpg" ∧
    ¬ (resolve_filename "https://x/image.jpg" ⟨some "image/jpeg", none, none⟩
          ["image.jpg"] ≠
        resolve_filename "https://x/image.jpg" ⟨some "image/jpeg", none, none⟩
          ["image.jpg"]) :=
  ⟨by decide, by decide, fun hne => hne rfl⟩

/-- Helper: every extension in the modelled MIME table is made of safe
characters and contains a dot. -/
theorem guess_extension_safe (m e : String) (h : guess_extension m = some e) :
    (∀ c ∈ e.data, c ∈ safe_chars) ∧ '.' ∈ e.data := by
  rw [guess_extension] at h
  split_ifs at h <;>
    first
      | exact Option.noConfusion h
      | (injection h with h; subst h; decide)

/-- Helper: the extension appended from the content type is made of safe
characters and contains a dot (table rows and the `.jpg` fallback alike). -/
theorem extFromContentType_safe (h : Headers) :
    (∀ c ∈ (extFromContentType h).data, c ∈ safe_chars) ∧
      '.' ∈ (extFromContentType h).data := by
  rcases hg : guess_extension (String.mk (takeUntilChar ';'
      (h.contentType.getD "image/jpeg").data)) with _ | e
  · simp only [extFromContentType, hg, Option.getD_none]
    decide
  · simp only [extFromContentType, hg, Option.getD_some]
    exact guess_extension_safe _ e hg

/-- Helper: stripping characters from both ends yields a subset of the
original characters. -/
theorem mem_of_mem_stripBoth (p : Char → Bool) (cs : List Char) (c : Char)
    (h : c ∈ stripBoth p cs) : c ∈ cs := by
  rw [stripBoth, List.mem_reverse] at h
  have h1 := (List.dropWhile_sublist _).subset h
  rw [List.mem_reverse] at h1
  exact (List.dropWhile_sublist _).subset h1

/-- Helper: every character surviving sanitization is in the safe set. -/
theorem sanitize_filename_safe (cs : List Char) (c : Char)
    (h : c ∈ sanitize_filename cs) : c ∈ safe_chars := by
  rw [sanitize_filename] at h
  have h1 := mem_of_mem_stripBoth _ _ _ h
  have h2 := List.of_mem_filter h1
  simpa using h2

/-- Claim C5, amended: the name returned by `get_filename_from_url` contains only
characters from the fixed safe set and contains at least one `.`; the
extension after the final dot, however, is not guaranteed nonempty (see the
counterexample for the claim as stated). -/
theorem get_filename_from_url_safe (url : String) (h : Headers) :
    (∀ c ∈ (get_filename_from_url url h).data, c ∈ safe_chars) ∧
    '.' ∈ (get_filename_from_url url h).data := by
  have key : ∀ f2 : List Char,
      (∀ c ∈ (if ¬ '.' ∈ sanitize_filename f2 then
          String.mk (sanitize_filename f2 ++ (extFromContentType h).data)
        else String.mk (sanitize_filename f2)).data, c ∈ safe_chars) ∧
      '.' ∈ (if ¬ '.' ∈ sanitize_filename f2 then
          String.mk (sanitize_filename f2 ++ (extFromContentType h).data)
        else String.mk (sanitize_filename f2)).data := by
    intro f2
    by_cases hd : '.' ∈ sanitize_filename f2
    · rw [if_neg (not_not_intro hd)]
      exact ⟨fun c hc => sanitize_filename_safe f2 c hc, hd⟩
    · rw [if_pos hd]
      constructor
      · intro c hc
        rcases List.mem_append.mp hc with hc | hc
        · exact sanitize_filename_safe f2 c hc
        · exact (extFromContentType_safe h).1 c hc
      · exact List.mem_append.mpr (Or.inr (extFromContentType_safe h).2)
  simp only [get_filename_from_url]
  exact key _

/-- Counterexample for C5 as stated: the URL path basename `photo.` survives
every step unchanged, so the returned name ends in a dot — it contains a `.`
but no dot in it is followed by a non-empty extension. -/
theorem get_filename_extension_counterexample :
    get_filename_from_url "https://x/photo." ⟨some "image/jpeg", none, none⟩ =
      "photo." ∧
    lastSegment '.' ("photo.".data) = [] ∧
    (∀ i : Fin ("photo.".data.length), "photo.".data.get i = '.' →
      (i : Nat) + 1 = "photo.".data.length) :=
  ⟨by decide, by decide, by decide⟩
